import Mathlib

/-!
Shallow embedding of `src/reliability.py` (GraphReliabilityMC).

The NetworkX graph is modelled as a list of nodes (the canonical node
ordering, `0, ..., n-1` for a graph built from an `n × n` adjacency matrix)
together with a Boolean adjacency function.  Python floats are modelled as
exact rationals; the process-wide random generator is modelled as an
explicit stream of draws, one rational in `[0, 1)` per node per trial.
A Python exception is modelled as `Option.none` / `Except.error`.
-/

/-- A NetworkX-style undirected graph: the canonical node ordering plus the
adjacency relation.  A graph built from an adjacency matrix has nodes
`[0, ..., n-1]` (no duplicates) and a symmetric adjacency function. -/
structure Graph where
  nodes : List Nat
  adj : Nat → Nat → Bool

/-- Neighbours of `u` inside `g`, in the canonical node ordering. -/
def neighbors (g : Graph) (u : Nat) : List Nat :=
  g.nodes.filter (fun v => g.adj u v)

/-- Model of `graph.subgraph(keep)`: the induced subgraph on the nodes of `keep`,
keeping the relative node ordering of the parent graph. -/
def subgraph (g : Graph) (keep : List Nat) : Graph :=
  { nodes := g.nodes.filter (fun v => decide (v ∈ keep)), adj := g.adj }

/-- One breadth-first expansion step of a reached-node front. -/
def stepReach (g : Graph) (s : List Nat) : List Nat :=
  s ++ g.nodes.filter (fun v => !s.contains v && s.any (fun u => g.adj u v))

/-- All nodes of `g` reachable from `src` (computed by iterating the
expansion step `|nodes|` times, enough to reach a fixpoint). -/
def reachSet (g : Graph) (src : Nat) : List Nat :=
  Nat.iterate (stepReach g) g.nodes.length [src]

/-- Model of `nx.has_path(g, src, dst)`: a path between `src` and `dst` exists. -/
def has_path (g : Graph) (src dst : Nat) : Bool :=
  (reachSet g src).contains dst

/-- Depth-first enumeration of the simple paths from `u` to `dst` extending
the (reversed-prefix-free) list `visited`; mirrors the stack-based search of
`nx.all_simple_paths`. -/
def spAux (g : Graph) (dst : Nat) : Nat → List Nat → Nat → List (List Nat)
  | 0, _, _ => []
  | fuel + 1, visited, u =>
    (neighbors g u).flatMap (fun v =>
      if v = dst then [visited ++ [u, v]]
      else if (visited ++ [u]).contains v then []
      else spAux g dst fuel (visited ++ [u]) v)

/-- Model of `nx.all_simple_paths(g, src, dst)`: all simple paths from `src` to
`dst`; empty when the graph has fewer than two nodes (the `cutoff < 1`
early return of NetworkX). -/
def all_simple_paths (g : Graph) (src dst : Nat) : List (List Nat) :=
  if g.nodes.length < 2 then [] else spAux g dst g.nodes.length [] src

/-- Model of `if_conn(graph)`: connectivity between the first and the last node of
the node list of the graph **it is handed** (`graph.nodes()[0]` and
`graph.nodes()[-1]`); `none` models the `IndexError` raised by `nodes[0]`
when the node list is empty. -/
def if_conn (g : Graph) : Option Bool :=
  match g.nodes.head?, g.nodes.getLast? with
  | some first_node, some last_node => some (has_path g first_node last_node)
  | _, _ => none

/-- Model of `count_simple_path(graph)`: the number of simple paths between the first
and the last node of the graph it is handed; `none` models the `IndexError`
on an empty node list. -/
def count_simple_path (g : Graph) : Option Nat :=
  match g.nodes.head?, g.nodes.getLast? with
  | some first_node, some last_node =>
      some (all_simple_paths g first_node last_node).length
  | _, _ => none

/-- The node-failure loop of `gen_graph_w_failure`: walk the node list,
consume one random draw per node (`draw j` is the `j`-th value produced by
the generator), and keep the node exactly when its draw is not `< rate`. -/
def surviving_nodes (nodes : List Nat) (rate : ℚ) (draw : Nat → ℚ) (j : Nat) :
    List Nat :=
  match nodes with
  | [] => []
  | v :: rest =>
    if draw j < rate then surviving_nodes rest rate draw (j + 1)
    else v :: surviving_nodes rest rate draw (j + 1)

/-- Model of `gen_graph_w_failure(graph, rate)`: sample a survivor per node and
return the induced subgraph of the survivors. -/
def gen_graph_w_failure (g : Graph) (rate : ℚ) (draw : Nat → ℚ) : Graph :=
  subgraph g (surviving_nodes g.nodes rate draw 0)

/-- The dynamically-typed result of one trial: a Boolean in reachability
mode, a path count in path-count mode. -/
inductive MCResult where
  | conn : Bool → MCResult
  | path_cnt : Nat → MCResult
deriving DecidableEq

/-- Python-level exceptions the simulation can raise. -/
inductive PyError where
  | indexError
  | zeroDivisionError
deriving DecidableEq

instance {ε α : Type} [DecidableEq ε] [DecidableEq α] :
    DecidableEq (Except ε α) := fun
  | .error a, .error b => decidable_of_iff (a = b) (by simp)
  | .error _, .ok _ => isFalse (by simp)
  | .ok _, .error _ => isFalse (by simp)
  | .ok a, .ok b => decidable_of_iff (a = b) (by simp)

/-- Model of `do_one_MC(graph, rate, count_path)`: one Monte-Carlo trial. -/
def do_one_MC (g : Graph) (rate : ℚ) (draw : Nat → ℚ) (count_path : Bool) :
    Option MCResult :=
  let sub_graph := gen_graph_w_failure g rate draw
  if count_path then (count_simple_path sub_graph).map MCResult.path_cnt
  else (if_conn sub_graph).map MCResult.conn

/-- Projection of a trial result in path-count mode. -/
def MCResult.toCount : MCResult → Nat
  | .path_cnt k => k
  | .conn _ => 0

/-- Projection of a trial result in reachability mode (Python truthiness of
the value accumulated in `result`). -/
def MCResult.toBool : MCResult → Bool
  | .conn b => b
  | .path_cnt k => decide (k ≠ 0)

/-- The per-trial list comprehension of `compute_reliability`: one
`do_one_MC` call per element of the index list, with `draw i` the slice of
the random stream consumed by trial `i`.  The first trial that raises
(`none`) aborts the whole run with an `IndexError`. -/
def run_trials (g : Graph) (rate : ℚ) (draw : Nat → Nat → ℚ)
    (count_path : Bool) : List Nat → Except PyError (List MCResult)
  | [] => .ok []
  | i :: rest =>
    match do_one_MC g rate (draw i) count_path with
    | none => .error .indexError
    | some r =>
      match run_trials g rate draw count_path rest with
      | .error e => .error e
      | .ok rs => .ok (r :: rs)

/-- Model of `compute_reliability(graph, rate, n_samples, count_path)`.

In path-count mode the source first computes
`init_path_cnt = count_simple_path(graph)` once, then runs the trials, then
builds `ratios = [i * 1.0 / init_path_cnt for i in path_cnt_after]`
(Python raises `ZeroDivisionError` at the first ratio when the trial list is
non-empty and `init_path_cnt = 0`), and finally returns
`sum(ratios) / len(ratios)` (raising `ZeroDivisionError` when the list is
empty).  In reachability mode it returns
`len([i for i in result if i]) * 1.0 / len(result)`.  Python floats are
modelled as exact rationals. -/
def compute_reliability (g : Graph) (rate : ℚ) (n_samples : Nat)
    (draw : Nat → Nat → ℚ) (count_path : Bool) : Except PyError ℚ :=
  if count_path then
    match count_simple_path g with
    | none => .error .indexError
    | some init_path_cnt =>
      match run_trials g rate draw true (List.range n_samples) with
      | .error e => .error e
      | .ok path_cnt_after =>
        if path_cnt_after ≠ [] ∧ init_path_cnt = 0 then .error .zeroDivisionError
        else
          let ratios := path_cnt_after.map
            (fun r => (r.toCount : ℚ) / (init_path_cnt : ℚ))
          if ratios.length = 0 then .error .zeroDivisionError
          else .ok (ratios.sum / (ratios.length : ℚ))
  else
    match run_trials g rate draw false (List.range n_samples) with
    | .error e => .error e
    | .ok result =>
      if result.length = 0 then .error .zeroDivisionError
      else .ok (((result.filter (fun r => r.toBool)).length : ℚ) /
                  (result.length : ℚ))

/-!
State-threaded variants: the source graph is the only object shared by the
whole run, so the "heap" is the graph object itself.  Each operation
returns its value together with the graph object after the call; NetworkX's
`nodes()`, `subgraph()`, `has_path` and `all_simple_paths` are read-only
and `graph.subgraph(...)` builds a fresh graph, so each primitive returns
the source object unchanged.  These definitions mirror the data flow of the
source call by call and let the frame property (claim C9) be stated.
-/

/-- Variant of `gen_graph_w_failure` with the source-graph object threaded through:
reads `graph.nodes()`, builds a fresh induced subgraph, and leaves the
source object as it was. -/
def gen_graph_w_failure_st (g : Graph) (rate : ℚ) (draw : Nat → ℚ) :
    Graph × Graph :=
  (subgraph g (surviving_nodes g.nodes rate draw 0), g)

/-- Variant of `do_one_MC` with the source-graph object threaded through. -/
def do_one_MC_st (g : Graph) (rate : ℚ) (draw : Nat → ℚ)
    (count_path : Bool) : Option MCResult × Graph :=
  let p := gen_graph_w_failure_st g rate draw
  (if count_path then (count_simple_path p.1).map MCResult.path_cnt
   else (if_conn p.1).map MCResult.conn, p.2)

/-- The trial loop with the source-graph object threaded through. -/
def run_trials_st (g : Graph) (rate : ℚ) (draw : Nat → Nat → ℚ)
    (count_path : Bool) : List Nat → Except PyError (List MCResult) × Graph
  | [] => (.ok [], g)
  | i :: rest =>
    let p := do_one_MC_st g rate (draw i) count_path
    match p.1 with
    | none => (.error .indexError, p.2)
    | some r =>
      let q := run_trials_st p.2 rate draw count_path rest
      (match q.1 with
       | .error e => .error e
       | .ok rs => .ok (r :: rs), q.2)

/-- Variant of `compute_reliability` with the source-graph object threaded through. -/
def compute_reliability_st (g : Graph) (rate : ℚ) (n_samples : Nat)
    (draw : Nat → Nat → ℚ) (count_path : Bool) : Except PyError ℚ × Graph :=
  if count_path then
    match count_simple_path g with
    | none => (.error .indexError, g)
    | some init_path_cnt =>
      let p := run_trials_st g rate draw true (List.range n_samples)
      (match p.1 with
       | .error e => .error e
       | .ok path_cnt_after =>
        if path_cnt_after ≠ [] ∧ init_path_cnt = 0 then .error .zeroDivisionError
        else
          let ratios := path_cnt_after.map
            (fun r => (r.toCount : ℚ) / (init_path_cnt : ℚ))
          if ratios.length = 0 then .error .zeroDivisionError
          else .ok (ratios.sum / (ratios.length : ℚ)), p.2)
  else
    let p := run_trials_st g rate draw false (List.range n_samples)
    (match p.1 with
     | .error e => .error e
     | .ok result =>
       if result.length = 0 then .error .zeroDivisionError
       else .ok (((result.filter (fun r => r.toBool)).length : ℚ) /
                   (result.length : ℚ)), p.2)

/-- The number of trials among the first `n` that evaluate to "connected"
in reachability mode. -/
def conn_trial_count (g : Graph) (rate : ℚ) (draw : Nat → Nat → ℚ)
    (n : Nat) : Nat :=
  ((List.range n).filter
    (fun i => decide (do_one_MC g rate (draw i) false =
      some (MCResult.conn true)))).length

/-- The 4-node path graph `0-1-2-3` (the concrete scenario of the spec). -/
def path4 : Graph :=
  { nodes := [0, 1, 2, 3],
    adj := fun u v =>
      (u == 0 && v == 1) || (u == 1 && v == 0) ||
      (u == 1 && v == 2) || (u == 2 && v == 1) ||
      (u == 2 && v == 3) || (u == 3 && v == 2) }

/-- The 2-node path graph `0-1`. -/
def path2 : Graph :=
  { nodes := [0, 1],
    adj := fun u v => (u == 0 && v == 1) || (u == 1 && v == 0) }

/-- A 2-node graph with no edge at all: its baseline simple-path count
between its endpoints `0` and `1` is zero. -/
def edgeless2 : Graph :=
  { nodes := [0, 1], adj := fun _ _ => false }

/-- The 4-node "diamond" with the two parallel routes `0-1-3` and `0-2-3`
(the concrete scenario of the spec with baseline path count 2). -/
def diamond : Graph :=
  { nodes := [0, 1, 2, 3],
    adj := fun u v =>
      (u == 0 && v == 1) || (u == 1 && v == 0) ||
      (u == 0 && v == 2) || (u == 2 && v == 0) ||
      (u == 1 && v == 3) || (u == 3 && v == 1) ||
      (u == 2 && v == 3) || (u == 3 && v == 2) }

/-- The rational `1/2`, as a kernel-reducible constructor literal. -/
def q1_2 : ℚ := ⟨1, 2, by norm_num, by norm_num⟩

/-- The rational `3/4`, as a kernel-reducible constructor literal. -/
def q3_4 : ℚ := ⟨3, 4, by norm_num, by norm_num⟩

/-- The rational `1/4`, as a kernel-reducible constructor literal. -/
def q1_4 : ℚ := ⟨1, 4, by norm_num, by norm_num⟩

/-- The rational `9/10`, as a kernel-reducible constructor literal. -/
def q9_10 : ℚ := ⟨9, 10, by norm_num, by norm_num⟩

/-! ### Helper lemmas -/

lemma q1_2_val : q1_2 = 1 / 2 := by
  unfold q1_2; rw [Rat.mk'_eq_divInt, Rat.divInt_eq_div]; norm_num

lemma q3_4_val : q3_4 = 3 / 4 := by
  unfold q3_4; rw [Rat.mk'_eq_divInt, Rat.divInt_eq_div]; norm_num

lemma q1_4_val : q1_4 = 1 / 4 := by
  unfold q1_4; rw [Rat.mk'_eq_divInt, Rat.divInt_eq_div]; norm_num

lemma q9_10_val : q9_10 = 9 / 10 := by
  unfold q9_10; rw [Rat.mk'_eq_divInt, Rat.divInt_eq_div]; norm_num

lemma if_conn_of_ne_nil (g : Graph) (h : g.nodes ≠ []) :
    ∃ b, if_conn g = some b := by
  match hn : g.nodes with
  | [] => exact absurd hn h
  | v :: rest =>
    refine ⟨has_path g v ((v :: rest).getLast (List.cons_ne_nil v rest)), ?_⟩
    simp [if_conn, hn, List.getLast?_eq_getLast]

lemma count_simple_path_of_ne_nil (g : Graph) (h : g.nodes ≠ []) :
    ∃ k, count_simple_path g = some k := by
  match hn : g.nodes with
  | [] => exact absurd hn h
  | v :: rest =>
    refine ⟨(all_simple_paths g v
      ((v :: rest).getLast (List.cons_ne_nil v rest))).length, ?_⟩
    simp [count_simple_path, hn, List.getLast?_eq_getLast]

lemma do_one_MC_conn_of_ne_nil (g : Graph) (rate : ℚ) (d : Nat → ℚ)
    (h : (gen_graph_w_failure g rate d).nodes ≠ []) :
    ∃ b, if_conn (gen_graph_w_failure g rate d) = some b ∧
      do_one_MC g rate d false = some (MCResult.conn b) := by
  obtain ⟨b, hb⟩ := if_conn_of_ne_nil _ h
  exact ⟨b, hb, by simp [do_one_MC, hb]⟩

lemma do_one_MC_path_of_ne_nil (g : Graph) (rate : ℚ) (d : Nat → ℚ)
    (h : (gen_graph_w_failure g rate d).nodes ≠ []) :
    ∃ k, count_simple_path (gen_graph_w_failure g rate d) = some k ∧
      do_one_MC g rate d true = some (MCResult.path_cnt k) := by
  obtain ⟨k, hk⟩ := count_simple_path_of_ne_nil _ h
  exact ⟨k, hk, by simp [do_one_MC, hk]⟩

lemma run_trials_eq_ok (g : Graph) (rate : ℚ) (draw : Nat → Nat → ℚ)
    (cp : Bool) (l : List Nat)
    (h : ∀ i ∈ l, (do_one_MC g rate (draw i) cp).isSome) :
    run_trials g rate draw cp l =
      .ok (l.map (fun i =>
        (do_one_MC g rate (draw i) cp).getD (MCResult.conn false))) := by
  induction l with
  | nil => simp [run_trials]
  | cons i rest ih =>
    obtain ⟨r, hr⟩ := Option.isSome_iff_exists.mp (h i (by simp))
    have hrest := ih (fun j hj => h j (by simp [hj]))
    simp [run_trials, hr, hrest]

lemma run_trials_length (g : Graph) (rate : ℚ) (draw : Nat → Nat → ℚ)
    (cp : Bool) (l : List Nat) (rs : List MCResult)
    (h : run_trials g rate draw cp l = .ok rs) : rs.length = l.length := by
  induction l generalizing rs with
  | nil => simp [run_trials] at h; simp [← h]
  | cons i rest ih =>
    rw [run_trials] at h
    match hmc : do_one_MC g rate (draw i) cp with
    | none => rw [hmc] at h; exact absurd h (by simp)
    | some r =>
      rw [hmc] at h
      match hrec : run_trials g rate draw cp rest with
      | .error e => rw [hrec] at h; exact absurd h (by simp)
      | .ok rs0 =>
        rw [hrec] at h
        simp at h
        simp [← h, ih rs0 hrec]

lemma run_trials_error_eq (g : Graph) (rate : ℚ) (draw : Nat → Nat → ℚ)
    (cp : Bool) (l : List Nat) (e : PyError)
    (h : run_trials g rate draw cp l = .error e) : e = PyError.indexError := by
  induction l generalizing e with
  | nil => simp [run_trials] at h
  | cons i rest ih =>
    rw [run_trials] at h
    match hmc : do_one_MC g rate (draw i) cp with
    | none => rw [hmc] at h; simp at h; exact h.symm
    | some r =>
      rw [hmc] at h
      match hrec : run_trials g rate draw cp rest with
      | .error e0 =>
        rw [hrec] at h; simp at h; exact h ▸ ih e0 hrec
      | .ok rs0 => rw [hrec] at h; exact absurd h (by simp)

lemma surviving_nodes_rate_nonpos (nodes : List Nat) (rate : ℚ)
    (d : Nat → ℚ) (j : Nat) (hd : ∀ k, ¬ d k < rate) :
    surviving_nodes nodes rate d j = nodes := by
  induction nodes generalizing j with
  | nil => simp [surviving_nodes]
  | cons v rest ih => simp [surviving_nodes, hd j, ih]

lemma surviving_nodes_all_fail (nodes : List Nat) (rate : ℚ)
    (d : Nat → ℚ) (j : Nat) (hd : ∀ k, d k < rate) :
    surviving_nodes nodes rate d j = [] := by
  induction nodes generalizing j with
  | nil => simp [surviving_nodes]
  | cons v rest ih => simp [surviving_nodes, hd j, ih]

lemma surviving_nodes_subset (nodes : List Nat) (rate : ℚ)
    (d : Nat → ℚ) (j : Nat) : surviving_nodes nodes rate d j ⊆ nodes := by
  induction nodes generalizing j with
  | nil => simp [surviving_nodes]
  | cons v rest ih =>
    rw [surviving_nodes]
    by_cases hc : d j < rate
    · simp only [if_pos hc]
      exact List.Subset.trans (ih (j + 1)) (List.subset_cons_self v rest)
    · simp only [if_neg hc]
      exact List.cons_subset_cons v (ih (j + 1))

lemma gen_rate_zero (g : Graph) (d : Nat → ℚ) (hd : ∀ j, 0 ≤ d j) :
    gen_graph_w_failure g 0 d = g := by
  have h1 : surviving_nodes g.nodes 0 d 0 = g.nodes :=
    surviving_nodes_rate_nonpos _ _ _ _ (fun k => not_lt.mpr (hd k))
  cases g with
  | mk ns adj =>
    simp only [gen_graph_w_failure, subgraph] at h1 ⊢
    rw [h1]
    congr 1
    exact List.filter_eq_self.mpr (fun a ha => by simpa using ha)

lemma surviving_nodes_mem_iff (nodes : List Nat) (rate : ℚ) (d : Nat → ℚ)
    (hnd : nodes.Nodup) (j0 j : Nat) (hj : j < nodes.length) :
    nodes.get ⟨j, hj⟩ ∈ surviving_nodes nodes rate d j0 ↔
      rate ≤ d (j0 + j) := by
  induction nodes generalizing j0 j with
  | nil => simp at hj
  | cons v rest ih =>
    have hv : v ∉ rest := (List.nodup_cons.mp hnd).1
    have hrest : rest.Nodup := (List.nodup_cons.mp hnd).2
    cases j with
    | zero =>
      show v ∈ surviving_nodes (v :: rest) rate d j0 ↔ rate ≤ d (j0 + 0)
      rw [surviving_nodes]
      by_cases hc : d j0 < rate
      · simp only [if_pos hc]
        constructor
        · intro hmem
          exact absurd (surviving_nodes_subset rest rate d (j0 + 1) hmem) hv
        · intro hle
          exact absurd hc (not_lt.mpr (by simpa using hle))
      · simp only [if_neg hc]
        simpa using not_lt.mp hc
    | succ j' =>
      have hj' : j' < rest.length := by simpa using hj
      show rest.get ⟨j', hj'⟩ ∈ surviving_nodes (v :: rest) rate d j0 ↔
        rate ≤ d (j0 + (j' + 1))
      have hw : rest.get ⟨j', hj'⟩ ∈ rest := List.get_mem rest j' hj'
      have hwv : rest.get ⟨j', hj'⟩ ≠ v := fun he => hv (he ▸ hw)
      rw [surviving_nodes]
      have harith : j0 + 1 + j' = j0 + (j' + 1) := by omega
      have hih := ih hrest (j0 + 1) j' hj'
      rw [harith] at hih
      by_cases hc : d j0 < rate
      · simp only [if_pos hc]
        exact hih
      · simp only [if_neg hc, List.mem_cons]
        constructor
        · rintro (he | hmem)
          · exact absurd he hwv
          · exact hih.mp hmem
        · intro hle
          exact Or.inr (hih.mpr hle)

lemma gen_mem_iff (g : Graph) (rate : ℚ) (d : Nat → ℚ)
    (hnd : g.nodes.Nodup) (j : Nat) (hj : j < g.nodes.length) :
    g.nodes.get ⟨j, hj⟩ ∈ (gen_graph_w_failure g rate d).nodes ↔
      rate ≤ d j := by
  have hmi := surviving_nodes_mem_iff g.nodes rate d hnd 0 j hj
  rw [Nat.zero_add] at hmi
  simp only [gen_graph_w_failure, subgraph, List.mem_filter,
    decide_eq_true_eq]
  constructor
  · intro hmem
    exact hmi.mp hmem.2
  · intro hle
    exact ⟨List.get_mem g.nodes j hj, hmi.mpr hle⟩

lemma do_one_MC_st_eq (g : Graph) (rate : ℚ) (d : Nat → ℚ) (cp : Bool) :
    do_one_MC_st g rate d cp = (do_one_MC g rate d cp, g) := rfl

lemma run_trials_st_snd (g : Graph) (rate : ℚ) (draw : Nat → Nat → ℚ)
    (cp : Bool) (l : List Nat) : (run_trials_st g rate draw cp l).2 = g := by
  induction l with
  | nil => rfl
  | cons i rest ih =>
    rw [run_trials_st, do_one_MC_st_eq]
    cases hmc : do_one_MC g rate (draw i) cp with
    | none => simp [hmc]
    | some r => simp [hmc, ih]

lemma compute_reliability_st_snd (g : Graph) (rate : ℚ) (n : Nat)
    (draw : Nat → Nat → ℚ) (cp : Bool) :
    (compute_reliability_st g rate n draw cp).2 = g := by
  rw [compute_reliability_st]
  split
  · split
    · rfl
    · simp [run_trials_st_snd]
  · simp [run_trials_st_snd]

/-! ### Claim theorems -/

/-- C1: the claim says the two endpoints used by the connectivity oracle are
the first and last node of the **full** graph, fixed at construction time
and used by every trial.  The code instead recomputes `nodes()[0]` and
`nodes()[-1]` from the graph each oracle call receives — in `do_one_MC`
that is the per-trial subgraph.  On the path graph `0-1-2-3` with rate
`1/2` and a trial whose draws make node `0` fail while `1, 2, 3` survive,
the surviving subgraph is `[1, 2, 3]` and the trial is evaluated between
nodes `1` and `3` and scored connected, although the designated endpoint
`0` is absent (the fixed-endpoint evaluation would score it disconnected). -/
theorem c1_endpoints_recomputed_per_trial :
    (gen_graph_w_failure path4 q1_2
      (fun j => if j = 0 then 0 else q3_4)).nodes = [1, 2, 3] ∧
    if_conn (gen_graph_w_failure path4 q1_2
      (fun j => if j = 0 then 0 else q3_4)) = some true ∧
    do_one_MC path4 q1_2 (fun j => if j = 0 then 0 else q3_4) false =
      some (MCResult.conn true) := by
  exact ⟨by decide, by decide, by decide⟩

/-- C2: the claim says a trial whose surviving subgraph lacks one or both
endpoints raises no exception and is scored `false` / `0`.  The code
violates both halves: a trial with an **empty** surviving subgraph raises
`IndexError` (`nodes()[0]` on an empty node list, modelled by `none`) in
both modes, and a trial whose subgraph is non-empty but lacks a designated
endpoint (here rate `1/4` and draws under which node `3` fails) is scored
between the subgraph's own first and last nodes — `some (conn true)`
instead of the claimed `false`. -/
theorem c2_endpoint_missing_not_scored_false :
    do_one_MC path4 q9_10 (fun _ => 0) false = none ∧
    do_one_MC path4 q9_10 (fun _ => 0) true = none ∧
    (gen_graph_w_failure path4 q1_4
      (fun j => if j = 3 then 0 else q1_2)).nodes = [0, 1, 2] ∧
    do_one_MC path4 q1_4 (fun j => if j = 3 then 0 else q1_2) false =
      some (MCResult.conn true) := by
  exact ⟨by decide, by decide, by decide, by decide⟩

/-- C3: the claim says the reachability-mode estimator with failure rate 1
returns exactly 0.0 for any graph and any `N ≥ 1`.  The code instead
raises: with rate 1 every draw in `[0, 1)` is `< 1`, every node fails, the
trial subgraph is empty, and `if_conn` hits `nodes()[0]` on an empty list —
an `IndexError`, not a 0.0 result.  Shown on the 2-node path graph with
`N = 1` and draws all 0. -/
theorem c3_rate_one_raises_instead_of_zero :
    (gen_graph_w_failure path2 1 (fun _ => 0)).nodes = [] ∧
    compute_reliability path2 1 1 (fun _ _ => 0) false =
      .error .indexError := by
  exact ⟨by decide, by decide⟩

/-- C4: the claim says path-count mode raises `DegenerateGraphError` iff
the baseline simple-path count is zero, before any trials run, and never
propagates a raw division-by-zero.  The code defines no such error: on a
2-node edgeless graph (baseline count 0) with `N = 1` and rate 0 it runs
the trial list first and then raises a raw `ZeroDivisionError` at the
first ratio `i * 1.0 / init_path_cnt`. -/
theorem c4_zero_baseline_raw_zero_division :
    count_simple_path edgeless2 = some 0 ∧
    compute_reliability edgeless2 0 1 (fun _ _ => 0) true =
      .error .zeroDivisionError := by
  exact ⟨by decide, by decide⟩

/-- C5: with failure rate 0 (and draws in `[0, 1)`, hence `≥ 0`) every
trial's subgraph equals the full graph, and for any `N ≥ 1` the
reachability-mode estimate is exactly 1 when the two endpoints of the
(non-empty) graph are connected and exactly 0 otherwise. -/
theorem c5_rate_zero_deterministic (g : Graph) (n : Nat)
    (draw : Nat → Nat → ℚ) (hn : 1 ≤ n) (hne : g.nodes ≠ [])
    (hd : ∀ i j, 0 ≤ draw i j) :
    (∀ i, gen_graph_w_failure g 0 (draw i) = g) ∧
    compute_reliability g 0 n draw false =
      .ok (if if_conn g = some true then 1 else 0) := by
  have hgen : ∀ i, gen_graph_w_failure g 0 (draw i) = g :=
    fun i => gen_rate_zero g (draw i) (hd i)
  refine ⟨hgen, ?_⟩
  obtain ⟨b, hb⟩ := if_conn_of_ne_nil g hne
  have hmc : ∀ i, do_one_MC g 0 (draw i) false = some (MCResult.conn b) := by
    intro i
    simp [do_one_MC, hgen i, hb]
  have hrt : run_trials g 0 draw false (List.range n) =
      .ok ((List.range n).map (fun _ => MCResult.conn b)) := by
    rw [run_trials_eq_ok g 0 draw false (List.range n)
      (fun i _ => by simp [hmc i])]
    congr 1
    exact List.map_congr_left (fun i _ => by simp [hmc i])
  have hn0 : n ≠ 0 := by omega
  cases b with
  | true =>
    have hfil : ((List.range n).map
        (fun _ => MCResult.conn true)).filter (fun r => r.toBool) =
        (List.range n).map (fun _ => MCResult.conn true) := by
      apply List.filter_eq_self.mpr
      intro a ha
      simp only [List.mem_map] at ha
      obtain ⟨i, _, hi⟩ := ha
      simp [← hi, MCResult.toBool]
    rw [hb]
    simp only [compute_reliability, Bool.false_eq_true, if_false, hrt,
      hfil, List.length_map, List.length_range, if_pos rfl]
    rw [if_neg hn0]
    rw [div_self (by exact_mod_cast hn0 : ((n : ℚ) ≠ 0))]
    simp
  | false =>
    have hfil : ((List.range n).map
        (fun _ => MCResult.conn false)).filter (fun r => r.toBool) = [] := by
      rw [List.filter_eq_nil_iff]
      intro a ha
      simp only [List.mem_map] at ha
      obtain ⟨i, _, hi⟩ := ha
      simp [← hi, MCResult.toBool]
    rw [hb]
    simp only [compute_reliability, Bool.false_eq_true, if_false, hrt,
      hfil, List.length_map, List.length_range, List.length_nil]
    rw [if_neg hn0]
    norm_num

/-- C5 witness: the path graph `0-1-2-3` with `N = 1` and all draws 0. -/
theorem c5_witness :
    path4.nodes ≠ [] ∧
    compute_reliability path4 0 1 (fun _ _ => 0) false =
      .ok (if if_conn path4 = some true then 1 else 0) := by
  refine ⟨by decide, ?_⟩
  exact (c5_rate_zero_deterministic path4 1 (fun _ _ => 0) (le_refl 1)
    (by decide) (fun i j => le_refl 0)).2

/-- C6: the failure sampler consumes one draw per node of the graph, in
node order (`draw j` is the draw of the node at position `j`); a node is in
the surviving subgraph's node set iff its own draw is `≥ rate` — including
the endpoint nodes, which get no special treatment — and when every draw is
`< rate` the survivor set is empty. -/
theorem c6_survival_rule (g : Graph) (rate : ℚ) (d : Nat → ℚ)
    (hnd : g.nodes.Nodup) :
    (∀ j (hj : j < g.nodes.length),
      (g.nodes.get ⟨j, hj⟩ ∈ (gen_graph_w_failure g rate d).nodes ↔
        rate ≤ d j)) ∧
    ((∀ k, d k < rate) → (gen_graph_w_failure g rate d).nodes = []) := by
  constructor
  · intro j hj
    exact gen_mem_iff g rate d hnd j hj
  · intro hall
    have h1 : surviving_nodes g.nodes rate d 0 = [] :=
      surviving_nodes_all_fail _ _ _ _ hall
    simp [gen_graph_w_failure, subgraph, h1]

/-- C6 witness: the 2-node path graph with rate `1/2`; node at position 1
draws `3/4` and survives. -/
theorem c6_witness :
    path2.nodes.Nodup ∧
    (path2.nodes.get ⟨1, by decide⟩ ∈
      (gen_graph_w_failure path2 q1_2
        (fun j => if j = 0 then 0 else q3_4)).nodes ↔
      q1_2 ≤ (fun j => if j = 0 then 0 else q3_4) 1) := by
  refine ⟨by decide, ?_⟩
  exact (c6_survival_rule path2 q1_2 (fun j => if j = 0 then 0 else q3_4)
    (by decide)).1 1 (by decide)

/-- C9: running the estimator, in either mode, for any rate and any sample
count, leaves the source graph object with the node set and edge relation
it had before the call (every per-trial subgraph is a fresh object). -/
theorem c9_source_graph_unchanged (g : Graph) (rate : ℚ) (n : Nat)
    (draw : Nat → Nat → ℚ) (count_path : Bool) :
    ((compute_reliability_st g rate n draw count_path).2).nodes = g.nodes ∧
    ((compute_reliability_st g rate n draw count_path).2).adj = g.adj := by
  rw [compute_reliability_st_snd]
  exact ⟨rfl, rfl⟩

/-- C10: with `n_samples = 0` the trial list is empty and the final
aggregation divides by `len([]) = 0`, so `compute_reliability` raises
`ZeroDivisionError` in both modes (in path-count mode the graph must be
non-empty for the baseline count to be reached at all); with `N ≥ 1` the
final aggregation's division is safe — the only `ZeroDivisionError` left in
path-count mode is the ratio division by a zero baseline, excluded here by
`p0 > 0`. -/
theorem c10_zero_samples_division_by_zero (g : Graph) (rate : ℚ)
    (draw : Nat → Nat → ℚ) :
    compute_reliability g rate 0 draw false = .error .zeroDivisionError ∧
    (g.nodes ≠ [] →
      compute_reliability g rate 0 draw true = .error .zeroDivisionError) ∧
    (∀ n, 1 ≤ n →
      compute_reliability g rate n draw false ≠ .error .zeroDivisionError) ∧
    (∀ n p0, 1 ≤ n → count_simple_path g = some p0 → 0 < p0 →
      compute_reliability g rate n draw true ≠ .error .zeroDivisionError) := by
  refine ⟨?_, ?_, ?_, ?_⟩
  · simp [compute_reliability, List.range_zero, run_trials]
  · intro hne
    obtain ⟨p0, hp0⟩ := count_simple_path_of_ne_nil g hne
    simp [compute_reliability, hp0, List.range_zero, run_trials]
  · intro n hn
    cases hrt : run_trials g rate draw false (List.range n) with
    | error e =>
      have he := run_trials_error_eq g rate draw false _ e hrt
      simp [compute_reliability, hrt, he]
    | ok rs =>
      have hlen : rs.length = n := by
        rw [run_trials_length g rate draw false _ rs hrt]
        simp
      have hne0 : ¬ rs.length = 0 := by omega
      simp [compute_reliability, hrt, hne0]
  · intro n p0 hn hp0 hp0pos
    cases hrt : run_trials g rate draw true (List.range n) with
    | error e =>
      have he := run_trials_error_eq g rate draw true _ e hrt
      simp [compute_reliability, hp0, hrt, he]
    | ok rs =>
      have hlen : rs.length = n := by
        rw [run_trials_length g rate draw true _ rs hrt]
        simp
      have hcond : ¬ (rs ≠ [] ∧ p0 = 0) := by
        rintro ⟨-, h0⟩
        omega
      have hne0 : ¬ rs.length = 0 := by omega
      simp [compute_reliability, hp0, hrt, hcond, hne0]

/-- C10 witness: the 2-node path graph, rate `1/2`: `N = 0` raises the
division-by-zero in path-count mode, while `N = 1` does not raise it in
reachability mode. -/
theorem c10_witness :
    path2.nodes ≠ [] ∧
    compute_reliability path2 q1_2 0 (fun _ _ => 0) true =
      .error .zeroDivisionError ∧
    compute_reliability path2 q1_2 1 (fun _ _ => 0) false ≠
      .error .zeroDivisionError := by
  refine ⟨by decide, ?_, ?_⟩
  · exact (c10_zero_samples_division_by_zero path2 q1_2
      (fun _ _ => 0)).2.1 (by decide)
  · exact (c10_zero_samples_division_by_zero path2 q1_2
      (fun _ _ => 0)).2.2.1 1 (le_refl 1)

/-- C7: in reachability mode the estimator runs one trial per element of
`range N`, accumulates the count `C` of trials whose evaluation is
`connected`, and returns exactly `C / N`, a value in `[0, 1]`.  The
hypothesis that every trial's surviving subgraph is non-empty is needed
because the code raises `IndexError` on an empty one (claims C2/C3). -/
theorem c7_reachability_estimate (g : Graph) (rate : ℚ) (n : Nat)
    (draw : Nat → Nat → ℚ) (hn : 1 ≤ n)
    (hsub : ∀ i, i < n → (gen_graph_w_failure g rate (draw i)).nodes ≠ []) :
    compute_reliability g rate n draw false =
      .ok ((conn_trial_count g rate draw n : ℚ) / (n : ℚ)) ∧
    0 ≤ (conn_trial_count g rate draw n : ℚ) / (n : ℚ) ∧
    (conn_trial_count g rate draw n : ℚ) / (n : ℚ) ≤ 1 := by
  have hsome : ∀ i ∈ List.range n, (do_one_MC g rate (draw i) false).isSome := by
    intro i hi
    obtain ⟨b, -, hd1⟩ := do_one_MC_conn_of_ne_nil g rate (draw i)
      (hsub i (List.mem_range.mp hi))
    simp [hd1]
  have hrt := run_trials_eq_ok g rate draw false (List.range n) hsome
  have hn0 : n ≠ 0 := by omega
  have hlen : ((List.range n).map (fun i =>
      (do_one_MC g rate (draw i) false).getD (MCResult.conn false))).length =
      n := by simp
  have hcnt : (((List.range n).map (fun i =>
      (do_one_MC g rate (draw i) false).getD (MCResult.conn false))).filter
        (fun r => r.toBool)).length = conn_trial_count g rate draw n := by
    rw [conn_trial_count, List.filter_map, List.length_map]
    congr 1
    apply List.filter_congr
    intro i hi
    obtain ⟨b, -, hd1⟩ := do_one_MC_conn_of_ne_nil g rate (draw i)
      (hsub i (List.mem_range.mp hi))
    simp only [Function.comp_apply, hd1, Option.getD_some]
    cases b <;> simp [MCResult.toBool]
  have hCle : conn_trial_count g rate draw n ≤ n := by
    rw [conn_trial_count]
    calc ((List.range n).filter _).length ≤ (List.range n).length :=
          List.length_filter_le _ _
      _ = n := List.length_range n
  refine ⟨?_, ?_, ?_⟩
  · simp only [compute_reliability, Bool.false_eq_true, if_false, hrt]
    rw [if_neg (by rw [hlen]; exact hn0), hcnt, hlen]
  · exact div_nonneg (Nat.cast_nonneg _) (Nat.cast_nonneg _)
  · rw [div_le_one (by exact_mod_cast Nat.pos_of_ne_zero hn0)]
    exact_mod_cast hCle

/-- C7 witness: the path graph `0-1-2-3`, rate 0, `N = 1`, all draws 0. -/
theorem c7_witness :
    (∀ i, i < 1 →
      (gen_graph_w_failure path4 0 ((fun _ _ => (0 : ℚ)) i)).nodes ≠ []) ∧
    compute_reliability path4 0 1 (fun _ _ => 0) false =
      .ok ((conn_trial_count path4 0 (fun _ _ => 0) 1 : ℚ) / ((1 : Nat) : ℚ)) := by
  have hs : ∀ i, i < 1 →
      (gen_graph_w_failure path4 0 ((fun _ _ => (0 : ℚ)) i)).nodes ≠ [] := by
    intro i _
    show (gen_graph_w_failure path4 0 (fun _ => 0)).nodes ≠ []
    decide
  exact ⟨hs, (c7_reachability_estimate path4 0 1 (fun _ _ => 0) (le_refl 1) hs).1⟩

/-- C8: in path-count mode the baseline `P0` is the simple-path count of
the full graph, computed up front; each of the `N` trials computes the
simple-path count `Pi` of its sampled subgraph, and the result is the
arithmetic mean of the `N` ratios `Pi / P0`.  The non-empty-subgraph
hypothesis excludes the `IndexError` of claims C2/C3, and `P0 > 0` the
zero-baseline division of claim C4. -/
theorem c8_path_count_estimate (g : Graph) (rate : ℚ) (n : Nat)
    (draw : Nat → Nat → ℚ) (hn : 1 ≤ n) (p0 : Nat)
    (hp0 : count_simple_path g = some p0) (hp0pos : 0 < p0)
    (hsub : ∀ i, i < n → (gen_graph_w_failure g rate (draw i)).nodes ≠ []) :
    compute_reliability g rate n draw true =
      .ok (((List.range n).map (fun i =>
        ((count_simple_path (gen_graph_w_failure g rate (draw i))).getD 0 : ℚ) /
          (p0 : ℚ))).sum / (n : ℚ)) := by
  have hsome : ∀ i ∈ List.range n, (do_one_MC g rate (draw i) true).isSome := by
    intro i hi
    obtain ⟨k, -, hd1⟩ := do_one_MC_path_of_ne_nil g rate (draw i)
      (hsub i (List.mem_range.mp hi))
    simp [hd1]
  have hrt := run_trials_eq_ok g rate draw true (List.range n) hsome
  have hn0 : n ≠ 0 := by omega
  set rs := (List.range n).map (fun i =>
    (do_one_MC g rate (draw i) true).getD (MCResult.conn false)) with hrs
  have hlenrs : rs.length = n := by simp [hrs]
  have hcond : ¬ (rs ≠ [] ∧ p0 = 0) := by
    rintro ⟨-, h0⟩
    omega
  have hratios : rs.map (fun r => (r.toCount : ℚ) / (p0 : ℚ)) =
      (List.range n).map (fun i =>
        ((count_simple_path (gen_graph_w_failure g rate (draw i))).getD 0 : ℚ) /
          (p0 : ℚ)) := by
    rw [hrs, List.map_map]
    apply List.map_congr_left
    intro i hi
    obtain ⟨k, hk, hd1⟩ := do_one_MC_path_of_ne_nil g rate (draw i)
      (hsub i (List.mem_range.mp hi))
    simp [Function.comp, hd1, hk, MCResult.toCount]
  simp only [compute_reliability, hp0, hrt]
  rw [if_neg hcond]
  simp only [hratios, List.length_map, List.length_range]
  rw [if_neg hn0]
  rw [if_pos trivial]

/-- C8 witness: the diamond graph (`0-1-3` and `0-2-3`), baseline path
count 2, rate 0, `N = 1`, all draws 0. -/
theorem c8_witness :
    count_simple_path diamond = some 2 ∧
    compute_reliability diamond 0 1 (fun _ _ => 0) true =
      .ok (((List.range 1).map (fun i =>
        ((count_simple_path (gen_graph_w_failure diamond 0
          ((fun _ _ => (0 : ℚ)) i))).getD 0 : ℚ) / ((2 : Nat) : ℚ))).sum /
            ((1 : Nat) : ℚ)) := by
  have hs : ∀ i, i < 1 →
      (gen_graph_w_failure diamond 0 ((fun _ _ => (0 : ℚ)) i)).nodes ≠ [] := by
    intro i _
    show (gen_graph_w_failure diamond 0 (fun _ => 0)).nodes ≠ []
    decide
  exact ⟨by decide, c8_path_count_estimate diamond 0 1 (fun _ _ => 0)
    (le_refl 1) 2 (by decide) (by decide) hs⟩
